import Mathlib

/-!
Verification development for the chatbot-rag web client.

The development shallowly embeds the client-side logic of the repository:

* the assistant-message content-block parser of `Doc.vue`
  (`regex = /<(citations|table|chart|code|doc|image|card|map)>(.*?)<\/\1>/gs`
  together with `processMessage` and `typeHandlers`),
* the outbound local-echo classification (`getFileType` / `getAudio` /
  `getFileName`),
* the session-identifier handling of `fetchCHAT` / `onMounted`,
* the message-list operations (`handleUserMessage`, `handleBotMessage`,
  the `fetchCHAT` error path) and the vote latch (`handlevote`).

Strings are modelled as `List Char`.  The external markdown renderer
`marked.parse` is an abstract parameter `md : List Char → List Char`;
the success or failure of the structured decode applied to `chart` /
`card` / `map` payloads (the `JSON.parse` builtin plus the subsequent
field accesses) is an abstract parameter `jsonOk : List Char → Bool`,
instantiated on concrete inputs by the JSON well-formedness checker
`jsonWf` defined below.
-/

namespace ChatbotRag

/-- Whitespace as removed by the JavaScript `String.prototype.trim`
(the ASCII part: space, tab, line feed, carriage return, vertical tab,
form feed). -/
def isJsWs (ch : Char) : Bool :=
  ch == ' ' || ch == '\t' || ch == '\n' || ch == '\r' || ch.val == 11 || ch.val == 12

/-- The JavaScript `String.prototype.trim`: drop whitespace from both ends. -/
def jsTrim (s : List Char) : List Char :=
  ((s.dropWhile isJsWs).reverse.dropWhile isJsWs).reverse

/-- The JavaScript `String.prototype.split` with a single-character
separator: `"".split(sep)` is `[""]` and every occurrence of the
separator starts a new segment. -/
def jsSplit (sep : Char) : List Char → List (List Char)
  | [] => [[]]
  | a :: r =>
    if a == sep then [] :: jsSplit sep r
    else
      match jsSplit sep r with
      | h :: t => (a :: h) :: t
      | [] => [[a]]

/-! ## Tag machinery of the content-block regex -/

/-- The opening tag `<kind>`. -/
def openTag (k : List Char) : List Char := '<' :: (k ++ ['>'])

/-- The closing tag `</kind>`. -/
def closeTag (k : List Char) : List Char := '<' :: '/' :: (k ++ ['>'])

def citationsK : List Char := "citations".data
def tableK : List Char := "table".data
def chartK : List Char := "chart".data
def codeK : List Char := "code".data
def docK : List Char := "doc".data
def imageK : List Char := "image".data
def cardK : List Char := "card".data
def mapK : List Char := "map".data

/-- The recognized block kinds, in the order of the regex alternation
`citations|table|chart|code|doc|image|card|map`. -/
def recognizedKinds : List (List Char) :=
  [citationsK, tableK, chartK, codeK, docK, imageK, cardK, mapK]

/-- Non-greedy content capture: split `s` into the shortest content
before the first occurrence of `ct` and the remainder after that
occurrence (the regex `(.*?)` followed by the closing tag, with the `s`
flag so the dot matches newlines).  `none` when `ct` does not occur. -/
def findClose (ct : List Char) : List Char → Option (List Char × List Char)
  | [] => if ct.isEmpty then some ([], []) else none
  | a :: s =>
    if ct.isPrefixOf (a :: s) then some ([], (a :: s).drop ct.length)
    else (findClose ct s).map fun p => (a :: p.1, p.2)

/-- One alternative of the regex tried at the current position: the
opening tag of `k` followed by a non-greedy capture up to `</k>`. -/
def tryKind (k s : List Char) : Option (List Char × List Char × List Char) :=
  if (openTag k).isPrefixOf s then
    (findClose (closeTag k) (s.drop (openTag k).length)).map fun p => (k, p.1, p.2)
  else none

/-- First alternative of the alternation that matches at the current
position. -/
def firstMatch : List (List Char) → List Char → Option (List Char × List Char × List Char)
  | [], _ => none
  | k :: ks, s =>
    match tryKind k s with
    | some r => some r
    | none => firstMatch ks s

/-- A match of the content-block regex anchored at the current position:
kind, captured content, and remainder of the input after the match. -/
def matchAt (s : List Char) : Option (List Char × List Char × List Char) :=
  firstMatch recognizedKinds s

/-- The leftmost match of the content-block regex in `s`: the untagged
text before the match, the kind, the captured content, and the
remainder after the match (the scanning of a global JavaScript regex). -/
def findMatch : List Char → Option (List Char × List Char × List Char × List Char)
  | [] => none
  | a :: s =>
    match matchAt (a :: s) with
    | some (k, c, r) => some ([], k, c, r)
    | none => (findMatch s).map fun q => (a :: q.1, q.2)

/-- A raw segment of the input as delimited by `processMessage`: an
untagged span (pushed as a `text` block) or a tagged region. -/
inductive Seg where
  | text (span : List Char)
  | tagged (kind : List Char) (content : List Char)
deriving DecidableEq

/-- The untrimmed source span a segment accounts for: the raw slice for
text segments, the whole match (tags included) for tagged segments. -/
def segSpan : Seg → List Char
  | .text t => t
  | .tagged k c => openTag k ++ c ++ closeTag k

/-- `processMessage` pushes an untagged span only when it is non-empty
(`offset > lastIndex`, and `lastIndex < messageText.length` for the
trailing span). -/
def flushText (t : List Char) : List Seg :=
  if t.isEmpty then [] else [Seg.text t]

/-- Fuelled scanning loop of `processMessage`: repeatedly take the
leftmost regex match, emitting the untagged span before it and the
tagged segment, then continue after the match.  The fuel only serves
termination; `parseSegs` supplies enough fuel for it never to run out
(each match consumes at least one character). -/
def parseSegsF : Nat → List Char → List Seg
  | 0, s => flushText s
  | f + 1, s =>
    match findMatch s with
    | some (t, k, c, r) => flushText t ++ Seg.tagged k c :: parseSegsF f r
    | none => flushText s

/-- The segment decomposition performed by `processMessage`. -/
def parseSegs (s : List Char) : List Seg := parseSegsF (s.length + 1) s

/-! ## Basic facts about the matcher -/

theorem findClose_eq (ct : List Char) :
    ∀ s c r : List Char, findClose ct s = some (c, r) → c ++ ct ++ r = s := by
  intro s
  induction s with
  | nil =>
    intro c r h
    simp only [findClose] at h
    by_cases hct : ct.isEmpty
    · rw [if_pos hct] at h
      injection h with h'
      injection h' with hc hr
      subst hc; subst hr
      simp [List.isEmpty_iff.mp hct]
    · rw [if_neg hct] at h
      exact absurd h (by simp)
  | cons a s ih =>
    intro c r h
    simp only [findClose] at h
    by_cases hpre : ct.isPrefixOf (a :: s)
    · rw [if_pos hpre] at h
      injection h with h'
      injection h' with hc hr
      subst hc; subst hr
      obtain ⟨t, ht⟩ := List.isPrefixOf_iff_prefix.mp hpre
      calc [] ++ ct ++ (a :: s).drop ct.length
          = ct ++ (ct ++ t).drop ct.length := by rw [← ht]; simp
        _ = ct ++ t := by rw [List.drop_left]
        _ = a :: s := ht
    · rw [if_neg hpre, Option.map_eq_some'] at h
      obtain ⟨⟨c', r'⟩, hfc, hpair⟩ := h
      injection hpair with hc hr
      subst hc; subst hr
      have := ih c' r' hfc
      simpa using congrArg (a :: ·) this

theorem tryKind_eq (k s : List Char) (kk c r : List Char)
    (h : tryKind k s = some (kk, c, r)) :
    kk = k ∧ openTag k ++ c ++ closeTag k ++ r = s := by
  unfold tryKind at h
  by_cases hpre : (openTag k).isPrefixOf s
  · rw [if_pos hpre, Option.map_eq_some'] at h
    obtain ⟨⟨c', r'⟩, hfc, hpair⟩ := h
    injection hpair with hk h2
    injection h2 with hc hr
    subst hk; subst hc; subst hr
    refine ⟨rfl, ?_⟩
    obtain ⟨t, ht⟩ := List.isPrefixOf_iff_prefix.mp hpre
    have hdrop : s.drop (openTag k).length = t := by
      rw [← ht, List.drop_left]
    rw [hdrop] at hfc
    have := findClose_eq (closeTag k) t c' r' hfc
    rw [← ht, ← this]
    simp
  · rw [if_neg hpre] at h
    exact absurd h (by simp)

theorem firstMatch_eq :
    ∀ ks : List (List Char), ∀ s k c r : List Char,
      firstMatch ks s = some (k, c, r) → openTag k ++ c ++ closeTag k ++ r = s := by
  intro ks
  induction ks with
  | nil => intro s k c r h; simp [firstMatch] at h
  | cons k0 ks ih =>
    intro s k c r h
    simp only [firstMatch] at h
    cases htk : tryKind k0 s with
    | some v =>
      rw [htk] at h
      injection h with h'
      obtain ⟨hk, he⟩ := tryKind_eq k0 s k c r (h' ▸ htk)
      subst hk
      exact he
    | none =>
      rw [htk] at h
      exact ih s k c r h

theorem matchAt_eq (s k c r : List Char) (h : matchAt s = some (k, c, r)) :
    openTag k ++ c ++ closeTag k ++ r = s :=
  firstMatch_eq recognizedKinds s k c r h

theorem matchAt_lt (s k c r : List Char) (h : matchAt s = some (k, c, r)) :
    r.length < s.length := by
  have he := matchAt_eq s k c r h
  have : s.length = (openTag k).length + (c.length + ((closeTag k).length + r.length)) := by
    rw [← he]; simp
  rw [this]
  have h1 : 0 < (openTag k).length := by simp [openTag]
  omega

theorem findMatch_eq :
    ∀ s t k c r : List Char, findMatch s = some (t, k, c, r) →
      t ++ openTag k ++ c ++ closeTag k ++ r = s := by
  intro s
  induction s with
  | nil => intro t k c r h; simp [findMatch] at h
  | cons a s ih =>
    intro t k c r h
    simp only [findMatch] at h
    cases hma : matchAt (a :: s) with
    | some v =>
      rw [hma] at h
      obtain ⟨k', c', r'⟩ := v
      injection h with h'
      injection h' with ht h2
      injection h2 with hk h3
      injection h3 with hc hr
      subst ht; subst hk; subst hc; subst hr
      simpa using matchAt_eq _ _ _ _ hma
    | none =>
      rw [hma, Option.map_eq_some'] at h
      obtain ⟨⟨t', k', c', r'⟩, hfm, hpair⟩ := h
      injection hpair with ht h2
      simp only [] at h2
      injection h2 with hk h3
      injection h3 with hc hr
      subst ht; subst hk; subst hc; subst hr
      have := ih t' k' c' r' hfm
      simpa using congrArg (a :: ·) this

theorem findMatch_lt (s t k c r : List Char) (h : findMatch s = some (t, k, c, r)) :
    r.length < s.length := by
  have he := findMatch_eq s t k c r h
  have : s.length =
      t.length + ((openTag k).length + (c.length + ((closeTag k).length + r.length))) := by
    rw [← he]; simp
  rw [this]
  have h1 : 0 < (openTag k).length := by simp [openTag]
  omega

/-- Source-span reconstruction for the fuelled scanner, given enough fuel. -/
theorem parseSegsF_spans :
    ∀ f : Nat, ∀ s : List Char, s.length ≤ f →
      ((parseSegsF f s).map segSpan).flatten = s := by
  intro f
  induction f with
  | zero =>
    intro s hs
    have : s = [] := List.length_eq_zero.mp (Nat.le_zero.mp hs)
    subst this
    simp [parseSegsF, flushText]
  | succ f ih =>
    intro s hs
    simp only [parseSegsF]
    cases hfm : findMatch s with
    | some v =>
      obtain ⟨t, k, c, r⟩ := v
      have hlt : r.length < s.length := findMatch_lt s t k c r hfm
      have hr : r.length ≤ f := by omega
      have hrec := ih r hr
      by_cases ht : t.isEmpty
      · have : t = [] := List.isEmpty_iff.mp ht
        subst this
        simp [flushText, segSpan, hrec]
        have := findMatch_eq s [] k c r hfm
        simpa using this
      · simp [flushText, ht, segSpan, hrec]
        have := findMatch_eq s t k c r hfm
        simpa using this
    | none =>
      by_cases ht : s.isEmpty
      · have : s = [] := List.isEmpty_iff.mp ht
        subst this
        simp [flushText]
      · simp [flushText, ht, segSpan]

/-- Source-span reconstruction: the spans of the segments produced by the
scan of `processMessage`, concatenated in emission order, reproduce the
input. -/
theorem parseSegs_spans (s : List Char) :
    ((parseSegs s).map segSpan).flatten = s :=
  parseSegsF_spans (s.length + 1) s (Nat.le_succ _)

/-! ## The type handlers and block emission -/

/-- A rendered content block as pushed into `extractedContent`.  The
`chart` / `card` / `map` payloads are carried as the raw captured
content whose structured decode succeeded (the component hands the
decoded fields to external renderers). -/
inductive Content where
  | text (value : List Char)
  | code (lang : List Char) (value : List Char)
  | chart (raw : List Char)
  | card (raw : List Char)
  | map (raw : List Char)
  | generic (kind : List Char) (value : List Char)
deriving DecidableEq

/-- `cleanContent`: trim the content and render it through the markdown
renderer (`marked.parse(content.trim(), { breaks: true })`). -/
def cleanContent (md : List Char → List Char) (c : List Char) : List Char :=
  md (jsTrim c)

/-- The language sentinel used when the captured content of a `code`
region has no fenced sub-pattern. -/
def plainTextLang : List Char := "plain-text".data

/-- A word character of the regex `\w`. -/
def isWordChar (ch : Char) : Bool := ch.isAlpha || ch.isDigit || ch == '_'

/-- The fence delimiter of the fenced-code sub-pattern. -/
def fenceDelim : List Char := "```".data

/-- The fenced-code sub-pattern anchored at the current position:
the regex `/(three backticks)(\w*)\n([\s\S]*?)(three backticks)/` tried at
the head of `s`, returning the language token and the body. -/
def fenceAt (s : List Char) : Option (List Char × List Char) :=
  if fenceDelim.isPrefixOf s then
    let r1 := s.drop fenceDelim.length
    let lang := r1.takeWhile isWordChar
    match r1.drop lang.length with
    | '\n' :: r3 => (findClose fenceDelim r3).map fun p => (lang, p.1)
    | _ => none
  else none

/-- The first match of the fenced-code sub-pattern anywhere in the
captured content (`exec` of a non-global regex). -/
def fenceSearch : List Char → Option (List Char × List Char)
  | [] => none
  | a :: s =>
    match fenceAt (a :: s) with
    | some p => some p
    | none => fenceSearch s

/-- Language of a `code` block: the fence's language token when the
fenced sub-pattern matches, else the `plain-text` sentinel. -/
def codeLang (c : List Char) : List Char :=
  match fenceSearch c with
  | some p => p.1
  | none => plainTextLang

/-- Body of a `code` block: the fence's body when the fenced sub-pattern
matches, else the whole captured content. -/
def codeBody (c : List Char) : List Char :=
  match fenceSearch c with
  | some p => p.2
  | none => c

/-- Dispatch on the matched kind, mirroring `typeHandlers` and its
generic fallback.  For `chart` / `card` / `map` the structured decode
(`JSON.parse` plus field accesses) can throw: `none` models the
exception, which aborts the remainder of the parse. -/
def handleSeg (md : List Char → List Char) (jsonOk : List Char → Bool) : Seg → Option Content
  | .text sp => some (.text (cleanContent md (jsTrim sp)))
  | .tagged k c =>
    if k = codeK then some (.code (codeLang c) (cleanContent md (codeBody c)))
    else if k = chartK then (if jsonOk c then some (.chart c) else none)
    else if k = cardK then (if jsonOk c then some (.card c) else none)
    else if k = mapK then (if jsonOk c then some (.map c) else none)
    else some (.generic k (cleanContent md c))

/-- Emission loop: blocks are pushed segment by segment together with
their source spans; a throwing handler aborts the loop, leaving the
blocks pushed so far. -/
def emitSpans (md : List Char → List Char) (jsonOk : List Char → Bool) :
    List Seg → List (List Char × Content)
  | [] => []
  | g :: gs =>
    match handleSeg md jsonOk g with
    | some b => (segSpan g, b) :: emitSpans md jsonOk gs
    | none => []

/-- The content blocks `processMessage` leaves in `extractedContent` for
a raw message `s`. -/
def processMessage (md : List Char → List Char) (jsonOk : List Char → Bool)
    (s : List Char) : List Content :=
  (emitSpans md jsonOk (parseSegs s)).map Prod.snd

/-- Whether the handler of a segment succeeds (it can only fail for a
structured kind whose payload fails the structured decode). -/
def segOk (jsonOk : List Char → Bool) : Seg → Bool
  | .text _ => true
  | .tagged k c =>
    if k = chartK ∨ k = cardK ∨ k = mapK then jsonOk c else true

theorem handleSeg_isSome (md : List Char → List Char) (jsonOk : List Char → Bool)
    (g : Seg) : (handleSeg md jsonOk g).isSome = segOk jsonOk g := by
  cases g with
  | text sp => rfl
  | tagged k c =>
    simp only [handleSeg, segOk]
    by_cases h1 : k = codeK
    · subst h1; simp [codeK, chartK, cardK, mapK]
    · by_cases h2 : k = chartK
      · subst h2; simp [chartK, codeK, cardK, mapK]; by_cases hj : jsonOk c <;> simp [hj]
      · by_cases h3 : k = cardK
        · subst h3; simp [cardK, codeK, chartK, mapK]; by_cases hj : jsonOk c <;> simp [hj]
        · by_cases h4 : k = mapK
          · subst h4; simp [mapK, codeK, chartK, cardK]; by_cases hj : jsonOk c <;> simp [hj]
          · simp [h1, h2, h3, h4]

/-- When every handler succeeds, the emitted spans are exactly the
segment spans, in order. -/
theorem emitSpans_fst_of_ok (md : List Char → List Char) (jsonOk : List Char → Bool) :
    ∀ gs : List Seg, gs.all (segOk jsonOk) = true →
      (emitSpans md jsonOk gs).map Prod.fst = gs.map segSpan := by
  intro gs
  induction gs with
  | nil => intro _; rfl
  | cons g gs ih =>
    intro h
    rw [List.all_cons, Bool.and_eq_true] at h
    obtain ⟨hg, hgs⟩ := h
    have : (handleSeg md jsonOk g).isSome = true := by
      rw [handleSeg_isSome]; exact hg
    obtain ⟨b, hb⟩ := Option.isSome_iff_exists.mp this
    simp only [emitSpans, hb, List.map_cons]
    rw [ih hgs]

/-! ## A concrete model of the structured decode

Modelled from the spec: the `JSON.parse` builtin applied to the captured
content of `chart` / `card` / `map` blocks is not part of the repository;
`jsonWf` checks well-formedness of the string against the JSON grammar
(ECMA-404: value = object, array, string, number, `true`, `false` or
`null`, with insignificant whitespace).  The recursion is fuelled; the
fuel is generous enough for every input of the given length. -/

/-- JSON insignificant whitespace. -/
def isJsonWs (ch : Char) : Bool :=
  ch == ' ' || ch == '\t' || ch == '\n' || ch == '\r'

def skipJsonWs (s : List Char) : List Char := s.dropWhile isJsonWs

def isHexDigit (ch : Char) : Bool :=
  ch.isDigit || ('a' ≤ ch && ch ≤ 'f') || ('A' ≤ ch && ch ≤ 'F')

/-- Consume a JSON string body after the opening quote, returning the
remainder after the closing quote. -/
def parseStringBody : List Char → Option (List Char)
  | [] => none
  | '"' :: r => some r
  | '\\' :: e :: r =>
    if e == '"' || e == '\\' || e == '/' || e == 'b' || e == 'f' ||
        e == 'n' || e == 'r' || e == 't' then parseStringBody r
    else if e == 'u' then
      match r with
      | h1 :: h2 :: h3 :: h4 :: r' =>
        if isHexDigit h1 && isHexDigit h2 && isHexDigit h3 && isHexDigit h4 then
          parseStringBody r'
        else none
      | _ => none
    else none
  | ch :: r => if ch.val ≥ 32 then parseStringBody r else none

/-- Consume the optional exponent part of a JSON number. -/
def parseExpPart (s : List Char) : Option (List Char) :=
  match s with
  | e :: r =>
    if e == 'e' || e == 'E' then
      let r1 := match r with
        | '+' :: r2 => r2
        | '-' :: r2 => r2
        | _ => r
      match r1 with
      | d :: _ => if d.isDigit then some (r1.dropWhile Char.isDigit) else none
      | [] => none
    else some s
  | [] => some []

/-- Consume the optional fraction part of a JSON number, then the
exponent part. -/
def parseFracPart (s : List Char) : Option (List Char) :=
  match s with
  | '.' :: r =>
    match r with
    | d :: _ => if d.isDigit then parseExpPart (r.dropWhile Char.isDigit) else none
    | [] => none
  | _ => parseExpPart s

/-- Consume a JSON number. -/
def parseNumber (s : List Char) : Option (List Char) :=
  let s1 := match s with
    | '-' :: r => r
    | _ => s
  match s1 with
  | '0' :: r => parseFracPart r
  | d :: r => if d.isDigit then parseFracPart (r.dropWhile Char.isDigit) else none
  | [] => none

mutual

/-- Consume one JSON value (leading whitespace allowed). -/
def parseVal : Nat → List Char → Option (List Char)
  | 0, _ => none
  | f + 1, s =>
    match skipJsonWs s with
    | '"' :: r => parseStringBody r
    | '{' :: r => parseObjBody f r
    | '[' :: r => parseArrBody f r
    | 't' :: 'r' :: 'u' :: 'e' :: r => some r
    | 'f' :: 'a' :: 'l' :: 's' :: 'e' :: r => some r
    | 'n' :: 'u' :: 'l' :: 'l' :: r => some r
    | s' => parseNumber s'

/-- Consume the members of an object after the opening brace. -/
def parseObjBody : Nat → List Char → Option (List Char)
  | 0, _ => none
  | f + 1, s =>
    match skipJsonWs s with
    | '}' :: r => some r
    | s' => parseMembers f s'

/-- Consume one `"key": value` member and the following members. -/
def parseMembers : Nat → List Char → Option (List Char)
  | 0, _ => none
  | f + 1, s =>
    match skipJsonWs s with
    | '"' :: r =>
      match parseStringBody r with
      | some r2 =>
        match skipJsonWs r2 with
        | ':' :: r3 =>
          match parseVal f r3 with
          | some r4 =>
            match skipJsonWs r4 with
            | ',' :: r5 => parseMembers f r5
            | '}' :: r5 => some r5
            | _ => none
          | none => none
        | _ => none
      | none => none
    | _ => none

/-- Consume the elements of an array after the opening bracket. -/
def parseArrBody : Nat → List Char → Option (List Char)
  | 0, _ => none
  | f + 1, s =>
    match skipJsonWs s with
    | ']' :: r => some r
    | s' => parseElems f s'

/-- Consume one element value and the following elements. -/
def parseElems : Nat → List Char → Option (List Char)
  | 0, _ => none
  | f + 1, s =>
    match parseVal f s with
    | some r =>
      match skipJsonWs r with
      | ',' :: r2 => parseElems f r2
      | ']' :: r2 => some r2
      | _ => none
    | none => none

end

/-- Whether a string is a well-formed JSON text (so `JSON.parse` would
succeed on it). -/
def jsonWf (s : List Char) : Bool :=
  match parseVal (2 * s.length + 8) s with
  | some r => (skipJsonWs r).isEmpty
  | none => false

/-! ## Outbound local-echo classification

From `getFileType` / `getAudio` in the user-message component and
`getFileName` in the document card. -/

/-- `getFileType`: the segment of the string before the first `@`
(`fileName.split('@').shift()`). -/
def getFileType (s : List Char) : List Char := (jsSplit '@' s).headD []

/-- The last `@`-segment (`s.split('@').pop()`). -/
def lastAtSeg (s : List Char) : List Char := (jsSplit '@' s).getLastD []

/-- `getAudio` transcript: the last `@`-segment up to its first `#`
(`split('#')` then `shift()`). -/
def audioTranscript (s : List Char) : List Char :=
  (jsSplit '#' (lastAtSeg s)).headD []

/-- `getAudio` url: the part of the last `@`-segment after its last `#`
(`split('#')`, `shift()`, then `pop()`); `none` models the `undefined`
result when the segment has no `#`. -/
def audioUrl (s : List Char) : Option (List Char) :=
  ((jsSplit '#' (lastAtSeg s)).drop 1).getLast?

/-- `getFileName`: last `@`-segment, last `/`-segment of it, then the
part before the first `.`. -/
def getFileName (s : List Char) : List Char :=
  (jsSplit '.' ((jsSplit '/' (lastAtSeg s)).getLastD [])).headD []

/-- The three shapes of the outbound local echo. -/
inductive Echo where
  | audio (transcript : List Char) (url : Option (List Char))
  | file (display : List Char)
  | plain (t : List Char)
deriving DecidableEq

/-- The template dispatch of the user-message component: `file` and
`audio` are recognized by the first `@`-segment, anything else is
literal text. -/
def classifyEcho (s : List Char) : Echo :=
  if getFileType s = "file".data then .file (getFileName s)
  else if getFileType s = "audio".data then .audio (audioTranscript s) (audioUrl s)
  else .plain s

/-! ## Session identifier handling (`fetchCHAT` / `onMounted`) -/

/-- The required session-identifier prefix `sess_`. -/
def sessPre : List Char := "sess_".data

/-- The outbound chat request body. -/
structure ChatRequest where
  query : List Char
  session_id : Option (List Char)
deriving DecidableEq

/-- Request construction in `fetchCHAT`: the stored identifier is
attached only when present, truthy (non-empty) and starting with
`sess_`. -/
def buildChatRequest (stored : Option (List Char)) (msg : List Char) : ChatRequest :=
  { query := msg,
    session_id :=
      match stored with
      | some sid => if !sid.isEmpty && sessPre.isPrefixOf sid then some sid else none
      | none => none }

/-- The `onMounted` validation: a stored identifier that is truthy but
does not start with `sess_` is removed from storage. -/
def validateStoredSession (stored : Option (List Char)) : Option (List Char) :=
  match stored with
  | some sid => if !sid.isEmpty && !(sessPre.isPrefixOf sid) then none else some sid
  | none => none

/-! ## Message list operations and the vote latch -/

/-- A message of the conversation list. -/
structure Msg where
  isUser : Bool := false
  isLoading : Bool := false
  isError : Bool := false
  isFirst : Bool := false
  text : List Char := []
  id : Nat := 0
deriving DecidableEq

/-- The pending assistant placeholder pushed before the reply arrives
(`{ isUser: false, isLoading }`). -/
def pendingBot : Msg := { isLoading := true }

/-- `handleUserMessage`: a pending audio echo is appended as-is; a
settled user message first drops the last message when that one is a
user message, then is appended with `id = length + 1` (length taken
after the drop). -/
def handleUserMessage (isLoading : Bool) (t : List Char) (msgs : List Msg) : List Msg :=
  if isLoading then
    msgs ++ [{ isUser := true, isLoading := true, text := "procesando audio...".data }]
  else
    let base := if ((msgs.getLast?).map Msg.isUser).getD false then msgs.dropLast else msgs
    base ++ [{ isUser := true, text := t, id := base.length + 1 }]

/-- `handleBotMessage`: a pending reply appends the placeholder; a
settled reply sets `isFirst` from the emptiness of the list, pops the
last message and pushes the reply. -/
def handleBotMessage (isLoading : Bool) (m : Msg) (msgs : List Msg) : List Msg :=
  if isLoading then msgs ++ [pendingBot]
  else msgs.dropLast ++ [{ m with isFirst := msgs.isEmpty }]

/-- The UI state owned by the chat view: the message list and the
stored session identifier. -/
structure ChatState where
  msgs : List Msg
  stored : Option (List Char)
deriving DecidableEq

/-- The inline error message appended by the `catch` branch of
`fetchCHAT`. -/
def errorBotMsg (idv : Nat) : Msg :=
  { isUser := false, isError := true, id := idv,
    text := "Lo siento, ha ocurrido un error. Por favor, intenta de nuevo.".data }

/-- The `catch` branch of `fetchCHAT`: one settled bot message carrying
the error text is delivered to the list; storage is untouched (only the
success branch writes the session identifier). -/
def fetchChatError (idv : Nat) (st : ChatState) : ChatState :=
  { st with msgs := handleBotMessage false (errorBotMsg idv) st.msgs }

/-- The vote latch of `handlevote`: a vote is recorded only while no
vote is set (`selectedVote.value === null`). -/
def voteStep (cur : Option Bool) (v : Bool) : Option Bool :=
  match cur with
  | none => some v
  | some w => some w

/-! ## Further parser lemmas -/

theorem mem_flushText (t sp : List Char) (h : Seg.text sp ∈ flushText t) :
    sp = t ∧ t ≠ [] := by
  unfold flushText at h
  by_cases ht : t.isEmpty
  · rw [if_pos ht] at h
    exact absurd h (List.not_mem_nil _)
  · rw [if_neg ht] at h
    rw [List.mem_singleton] at h
    injection h with h'
    exact ⟨h', fun he => ht (by simp [he])⟩

theorem parseSegsF_text_ne :
    ∀ f : Nat, ∀ s sp : List Char, Seg.text sp ∈ parseSegsF f s → sp ≠ [] := by
  intro f
  induction f with
  | zero =>
    intro s sp h
    obtain ⟨rfl, hne⟩ := mem_flushText s sp h
    exact hne
  | succ f ih =>
    intro s sp h
    simp only [parseSegsF] at h
    cases hfm : findMatch s with
    | some v =>
      obtain ⟨t, k, c, r⟩ := v
      rw [hfm] at h
      rw [List.mem_append] at h
      cases h with
      | inl h =>
        obtain ⟨rfl, hne⟩ := mem_flushText t sp h
        exact hne
      | inr h =>
        rw [List.mem_cons] at h
        cases h with
        | inl h => exact absurd h (by intro hc; cases hc)
        | inr h => exact ih r sp h
    | none =>
      rw [hfm] at h
      obtain ⟨rfl, hne⟩ := mem_flushText s sp h
      exact hne

theorem parseSegsF_nil (f : Nat) : parseSegsF f [] = [] := by
  cases f with
  | zero => rfl
  | succ f => rfl

theorem findClose_self_append (ct : List Char) (hct : ct ≠ []) (rest : List Char) :
    findClose ct (ct ++ rest) = some ([], rest) := by
  match ct, hct with
  | a :: ct', _ =>
    have h1 : (a :: ct').isPrefixOf ((a :: ct') ++ rest) = true :=
      List.isPrefixOf_iff_prefix.mpr (List.prefix_append _ _)
    show findClose (a :: ct') (a :: (ct' ++ rest)) = some ([], rest)
    simp only [findClose]
    rw [if_pos (by simp only [List.cons_append] at h1; exact h1)]
    simp [List.drop_left]

theorem findClose_boundary (k : List Char) :
    ∀ c : List Char, '<' ∉ c → findClose (closeTag k) (c ++ closeTag k) = some (c, []) := by
  intro c
  induction c with
  | nil =>
    intro _
    have h := findClose_self_append (closeTag k) (by simp [closeTag]) []
    rw [List.append_nil] at h
    simpa using h
  | cons x c ih =>
    intro hx
    have hxne : x ≠ '<' := fun h => hx (h ▸ List.mem_cons_self x c)
    have hnp : (closeTag k).isPrefixOf (x :: (c ++ closeTag k)) = false := by
      rw [closeTag]
      show (('<' == x) && (('/' :: (k ++ ['>'])).isPrefixOf (c ++ closeTag k))) = false
      have : ('<' == x) = false := by
        rw [beq_eq_false_iff_ne]
        exact fun h => hxne h.symm
      rw [this, Bool.false_and]
    have hx' : '<' ∉ c := fun h => hx (List.mem_cons_of_mem x h)
    show findClose (closeTag k) (x :: (c ++ closeTag k)) = some (x :: c, [])
    simp only [findClose]
    rw [if_neg (by simp [hnp]), ih hx']
    rfl

theorem findMatch_of_matchAt (s : List Char) (hs : s ≠ []) (k c r : List Char)
    (h : matchAt s = some (k, c, r)) : findMatch s = some ([], k, c, r) := by
  match s, hs with
  | a :: s', _ => simp only [findMatch, h]

theorem matchAt_code (c : List Char) (hx : '<' ∉ c) :
    matchAt (openTag codeK ++ c ++ closeTag codeK) = some (codeK, c, []) := by
  have h1 : findClose (closeTag codeK) (c ++ closeTag codeK) = some (c, []) :=
    findClose_boundary codeK c hx
  have hpre : (openTag codeK).isPrefixOf (openTag codeK ++ c ++ closeTag codeK) = true :=
    List.isPrefixOf_iff_prefix.mpr
      ((List.prefix_append (openTag codeK) c).trans
        (List.prefix_append (openTag codeK ++ c) (closeTag codeK)))
  have hdrop : (openTag codeK ++ c ++ closeTag codeK).drop (openTag codeK).length
      = c ++ closeTag codeK := by
    rw [List.append_assoc, List.drop_left]
  have h2 : tryKind codeK (openTag codeK ++ c ++ closeTag codeK) = some (codeK, c, []) := by
    unfold tryKind
    rw [if_pos hpre, hdrop, h1]
    rfl
  have hcit : tryKind citationsK (openTag codeK ++ c ++ closeTag codeK) = none := rfl
  have htab : tryKind tableK (openTag codeK ++ c ++ closeTag codeK) = none := rfl
  have hcha : tryKind chartK (openTag codeK ++ c ++ closeTag codeK) = none := rfl
  show firstMatch recognizedKinds (openTag codeK ++ c ++ closeTag codeK) = some (codeK, c, [])
  rw [recognizedKinds]
  simp only [firstMatch, hcit, htab, hcha, h2]

theorem parseSegs_code (c : List Char) (hx : '<' ∉ c) :
    parseSegs (openTag codeK ++ c ++ closeTag codeK) = [Seg.tagged codeK c] := by
  have hfm : findMatch (openTag codeK ++ c ++ closeTag codeK) = some ([], codeK, c, []) :=
    findMatch_of_matchAt _ (by simp [openTag]) _ _ _ (matchAt_code c hx)
  unfold parseSegs
  simp only [parseSegsF, hfm, parseSegsF_nil, flushText]
  rfl

/-! ## Lemmas about the JavaScript split -/

theorem jsSplit_of_not_mem (sep : Char) :
    ∀ s : List Char, sep ∉ s → jsSplit sep s = [s] := by
  intro s
  induction s with
  | nil => intro _; rfl
  | cons a r ih =>
    intro h
    have ha : a ≠ sep := fun he => h (he ▸ List.mem_cons_self a r)
    have hr : sep ∉ r := fun he => h (List.mem_cons_of_mem a he)
    simp only [jsSplit]
    rw [if_neg (by simp [ha]), ih hr]

theorem jsSplit_append (sep : Char) :
    ∀ a b : List Char, sep ∉ a → jsSplit sep (a ++ sep :: b) = a :: jsSplit sep b := by
  intro a
  induction a with
  | nil =>
    intro b _
    show jsSplit sep (sep :: b) = [] :: jsSplit sep b
    simp only [jsSplit]
    rw [if_pos (by simp)]
  | cons x a ih =>
    intro b h
    have hx : x ≠ sep := fun he => h (he ▸ List.mem_cons_self x a)
    have ha : sep ∉ a := fun he => h (List.mem_cons_of_mem x he)
    show jsSplit sep (x :: (a ++ sep :: b)) = (x :: a) :: jsSplit sep b
    simp only [jsSplit]
    rw [if_neg (by simp [hx]), ih b ha]

/-! ## Claim theorems -/

/-- C1, counterexample: the round-trip span coverage does not hold for
every input string.  On `"<chart>x</chart>"` the structured decode of
the chart payload `x` fails (`x` is not valid JSON), the handler throws
and the parse aborts before any block is pushed, so the concatenated
source spans of the emitted blocks (none) do not reproduce the input. -/
theorem c1_counterexample :
    ¬ ((emitSpans id jsonWf (parseSegs "<chart>x</chart>".data)).map Prod.fst).flatten
      = "<chart>x</chart>".data := by decide

/-- C1 (amended): for every input all of whose `chart` / `card` / `map`
payloads pass the structured decode (in particular any input without
such blocks), concatenating the untrimmed source spans of the emitted
blocks in emission order reproduces the original string; hence every
byte of the input is accounted for in some block's source span and the
blocks appear in first-occurrence order of their spans. -/
theorem c1_span_coverage (md : List Char → List Char) (jsonOk : List Char → Bool)
    (s : List Char) (h : (parseSegs s).all (segOk jsonOk) = true) :
    ((emitSpans md jsonOk (parseSegs s)).map Prod.fst).flatten = s := by
  rw [emitSpans_fst_of_ok md jsonOk (parseSegs s) h, parseSegs_spans]

/-- C1, witness: span coverage evaluated on a concrete mixed input with
a text span, a chart block with valid JSON payload, and a trailing text
span. -/
theorem c1_span_coverage_witness :
    (parseSegs "Hi <chart>[1]</chart> bye".data).all (segOk jsonWf) = true
    ∧ ((emitSpans id jsonWf (parseSegs "Hi <chart>[1]</chart> bye".data)).map
        Prod.fst).flatten = "Hi <chart>[1]</chart> bye".data :=
  ⟨by decide, c1_span_coverage id jsonWf "Hi <chart>[1]</chart> bye".data (by decide)⟩

/-- C2, counterexample: an unrecognized tag does not yield a generic
block of its own kind.  The regex alternation only matches the eight
recognized kinds, so `"<foo>bar</foo>"` is swallowed into the
surrounding untagged span and the parse yields a single `text` block —
no block of kind `foo` is emitted. -/
theorem c2_counterexample :
    processMessage id jsonWf "<foo>bar</foo>".data
      = [Content.text "<foo>bar</foo>".data] := by decide

/-- C2 (amended): the generic fallback block, whose `kind` is the literal
tag name and whose payload is the markup-rendered captured content,
is produced exactly for the recognized kinds without a dedicated
handler — `citations`, `table`, `doc` and `image`; tag names outside the
recognized set never match and their region stays inside the untagged
text span. -/
theorem c2_generic_fallback (md : List Char → List Char) (jsonOk : List Char → Bool)
    (k c : List Char) (h : k ∈ [citationsK, tableK, docK, imageK]) :
    handleSeg md jsonOk (Seg.tagged k c)
      = some (Content.generic k (cleanContent md c)) := by
  simp only [List.mem_cons, List.not_mem_nil, or_false] at h
  rcases h with rfl | rfl | rfl | rfl <;> rfl

/-- C2, witness: the generic fallback evaluated at the `citations` kind
on the captured content of the specification example. -/
theorem c2_generic_fallback_witness :
    citationsK ∈ [citationsK, tableK, docK, imageK]
    ∧ handleSeg id jsonWf (Seg.tagged citationsK "[1] Spec".data)
        = some (Content.generic citationsK (cleanContent id "[1] Spec".data)) :=
  ⟨by decide, c2_generic_fallback id jsonWf citationsK "[1] Spec".data (by decide)⟩

/-- C4: for every `code` region, if the captured content contains the
fenced-code sub-pattern the emitted code block uses the fence's language
token and body, otherwise the entire captured content becomes the body
with the `plain-text` sentinel language; and a `code` region whose
content is free of `<` yields exactly that block through the full
parser. -/
theorem c4_code_block (md : List Char → List Char) (jsonOk : List Char → Bool)
    (c : List Char) :
    (∀ l b : List Char, fenceSearch c = some (l, b) →
      handleSeg md jsonOk (Seg.tagged codeK c)
        = some (Content.code l (cleanContent md b)))
    ∧ (fenceSearch c = none →
      handleSeg md jsonOk (Seg.tagged codeK c)
        = some (Content.code plainTextLang (cleanContent md c)))
    ∧ ('<' ∉ c →
      processMessage md jsonOk (openTag codeK ++ c ++ closeTag codeK)
        = [Content.code (codeLang c) (cleanContent md (codeBody c))]) := by
  have hh : handleSeg md jsonOk (Seg.tagged codeK c)
      = some (Content.code (codeLang c) (cleanContent md (codeBody c))) := rfl
  refine ⟨?_, ?_, ?_⟩
  · intro l b hfs
    rw [hh]
    simp [codeLang, codeBody, hfs]
  · intro hfs
    rw [hh]
    simp [codeLang, codeBody, hfs]
  · intro hx
    unfold processMessage
    rw [parseSegs_code c hx]
    rfl

/-- C4, witness: `<code></code>` (empty captured content, no fenced
sub-pattern) yields a block with the `plain-text` sentinel language and
empty body; a fenced content picks up its language token and body. -/
theorem c4_code_block_witness :
    (fenceSearch ([] : List Char) = none
      ∧ handleSeg id jsonWf (Seg.tagged codeK [])
          = some (Content.code plainTextLang []))
    ∧ (fenceSearch "```py\nx```".data = some ("py".data, "x".data)
      ∧ handleSeg id jsonWf (Seg.tagged codeK "```py\nx```".data)
          = some (Content.code "py".data "x".data))
    ∧ ('<' ∉ ([] : List Char)
      ∧ processMessage id jsonWf (openTag codeK ++ [] ++ closeTag codeK)
          = [Content.code plainTextLang []]) :=
  ⟨⟨rfl, (c4_code_block id jsonWf []).2.1 rfl⟩,
    ⟨by decide, (c4_code_block id jsonWf "```py\nx```".data).1 "py".data "x".data (by decide)⟩,
    ⟨by decide, (c4_code_block id jsonWf []).2.2 (by decide)⟩⟩

/-- C5, counterexample: an untagged span that is empty after trimming can
still become its own `text` block.  In `"<doc>a</doc> <doc>b</doc>"` the
single-space span between the two tagged regions trims to the empty
string, yet `processMessage` pushes a `text` block for it (three blocks,
not two). -/
theorem c5_counterexample :
    processMessage id jsonWf "<doc>a</doc> <doc>b</doc>".data
      = [Content.generic docK "a".data, Content.text [],
          Content.generic docK "b".data]
    ∧ jsTrim " ".data = [] := ⟨by decide, by decide⟩

/-- C5 (amended): an untagged span becomes its own `text` block iff the
raw span is non-empty as a string — even when it consists of whitespace
only; the span's content is trimmed before markup rendering.  Stated
here: every `text` segment the scan emits has a non-empty raw span (the
converse inclusion of every byte is `c1_span_coverage`). -/
theorem c5_text_spans_nonempty (s sp : List Char)
    (h : Seg.text sp ∈ parseSegs s) : sp ≠ [] :=
  parseSegsF_text_ne (s.length + 1) s sp h

/-- C5, witness: the leading two-space span of a concrete input is a
(non-empty) emitted text segment. -/
theorem c5_text_spans_nonempty_witness :
    Seg.text "  ".data ∈ parseSegs "  <doc>a</doc>".data
    ∧ "  ".data ≠ ([] : List Char) :=
  ⟨by decide, c5_text_spans_nonempty "  <doc>a</doc>".data "  ".data (by decide)⟩

/-- C6, counterexample: the claim puts the audio transcript before the
last `#`, but the code (`split('#')` then `shift()`) takes the part of
the last `@`-segment before the first `#`.  On `"audio@a#b#c"` the
claim predicts transcript `"a#b"`; the code produces `"a"` (and url
`"c"`). -/
theorem c6_counterexample :
    classifyEcho "audio@a#b#c".data = Echo.audio "a".data (some "c".data)
    ∧ "a".data ≠ "a#b".data := ⟨by decide, by decide⟩

/-- C6 (amended): the outbound local echo splits on `@` and classifies by
the segment before the first `@`; for `audio` the transcript is the part
of the last `@`-segment before its first `#` and the url is the part
after its last `#`; for `file` the display name is the last
`@`-segment's final path component truncated at its first dot; otherwise
the whole string is literal text.  The three specification examples hold
as given, and the audio rule is proved for every `#`-free transcript and
url. -/
theorem c6_outbound_classification :
    (classifyEcho "audio@hello world#http://x/a.wav".data
        = Echo.audio "hello world".data (some "http://x/a.wav".data)
      ∧ classifyEcho "file@/tmp/report.pdf".data = Echo.file "report".data
      ∧ classifyEcho "just text".data = Echo.plain "just text".data)
    ∧ ∀ t u : List Char, '@' ∉ t → '@' ∉ u → '#' ∉ t → '#' ∉ u →
        classifyEcho ("audio@".data ++ t ++ '#' :: u) = Echo.audio t (some u) := by
  refine ⟨⟨by decide, by decide, by decide⟩, ?_⟩
  intro t u hat hau hht hhu
  have hsplit : jsSplit '@' ("audio@".data ++ t ++ '#' :: u)
      = ["audio".data, t ++ '#' :: u] := by
    have he : "audio@".data ++ t ++ '#' :: u
        = "audio".data ++ '@' :: (t ++ '#' :: u) := rfl
    rw [he, jsSplit_append '@' "audio".data (t ++ '#' :: u) (by decide)]
    rw [jsSplit_of_not_mem '@' (t ++ '#' :: u) ?hnm]
    case hnm =>
      intro hmem
      rcases List.mem_append.mp hmem with h | h
      · exact hat h
      · rcases List.mem_cons.mp h with h | h
        · exact absurd h (by decide)
        · exact hau h
  have hlast : lastAtSeg ("audio@".data ++ t ++ '#' :: u) = t ++ '#' :: u := by
    unfold lastAtSeg
    rw [hsplit]
    rfl
  have hsplit2 : jsSplit '#' (t ++ '#' :: u) = [t, u] := by
    rw [jsSplit_append '#' t u hht, jsSplit_of_not_mem '#' u hhu]
  have hft : getFileType ("audio@".data ++ t ++ '#' :: u) = "audio".data := by
    unfold getFileType
    rw [hsplit]
    rfl
  unfold classifyEcho
  rw [hft]
  rw [if_neg (by decide), if_pos rfl]
  unfold audioTranscript audioUrl
  rw [hlast, hsplit2]
  rfl

/-- C6, witness: the general audio rule evaluated on the specification's
own example transcript and url. -/
theorem c6_outbound_classification_witness :
    ('@' ∉ "hello world".data) ∧ ('@' ∉ "a.wav".data)
    ∧ ('#' ∉ "hello world".data) ∧ ('#' ∉ "a.wav".data)
    ∧ classifyEcho ("audio@".data ++ "hello world".data ++ '#' :: "a.wav".data)
        = Echo.audio "hello world".data (some "a.wav".data) :=
  ⟨by decide, by decide, by decide, by decide,
    c6_outbound_classification.2 "hello world".data "a.wav".data
      (by decide) (by decide) (by decide) (by decide)⟩

/-- C7: a stored session identifier that does not start with the
required prefix `sess_` is discarded before use — it is never attached
to the outbound chat request (the send proceeds with the bare query),
and the mount-time validation removes a non-empty such value from
storage. -/
theorem c7_invalid_session_discarded (sid msg : List Char)
    (h : sessPre.isPrefixOf sid = false) :
    (buildChatRequest (some sid) msg).session_id = none
    ∧ (buildChatRequest (some sid) msg).query = msg
    ∧ (sid ≠ [] → validateStoredSession (some sid) = none) := by
  refine ⟨?_, rfl, ?_⟩
  · simp [buildChatRequest, h]
  · intro hne
    have hemp : sid.isEmpty = false := by
      cases sid with
      | nil => exact absurd rfl hne
      | cons a l => rfl
    simp [validateStoredSession, h, hemp]

/-- C7, witness: a concrete foreign identifier is neither attached nor
kept. -/
theorem c7_invalid_session_discarded_witness :
    sessPre.isPrefixOf "abc123".data = false
    ∧ ((buildChatRequest (some "abc123".data) "hola".data).session_id = none
      ∧ (buildChatRequest (some "abc123".data) "hola".data).query = "hola".data
      ∧ ("abc123".data ≠ [] → validateStoredSession (some "abc123".data) = none)) :=
  ⟨by decide, c7_invalid_session_discarded "abc123".data "hola".data (by decide)⟩

/-- C8: when the outbound chat request fails, the catch branch delivers
exactly one inline error message block to the list, replacing only the
pending placeholder pushed before the call; the messages before the
placeholder and the stored session identifier are untouched. -/
theorem c8_error_replaces_placeholder (idv : Nat) (pre : List Msg)
    (stored : Option (List Char)) :
    fetchChatError idv { msgs := pre ++ [pendingBot], stored := stored }
      = { msgs := pre ++ [errorBotMsg idv], stored := stored } := by
  simp only [fetchChatError, handleBotMessage, Bool.false_eq_true, if_false,
    List.dropLast_concat]
  have hne : (pre ++ [pendingBot]).isEmpty = false := by
    cases pre <;> rfl
  rw [hne]
  rfl

/-- C9: the vote latch is immutable once set — starting from a recorded
vote, any sequence of further vote attempts leaves the recorded vote
unchanged (no double-voting). -/
theorem c9_vote_immutable (b : Bool) (vs : List Bool) :
    vs.foldl voteStep (some b) = some b := by
  induction vs with
  | nil => rfl
  | cons v vs ih => simpa [voteStep] using ih

/-- C10: adding a settled user message when the list currently ends in a
user message first removes that last message and then appends the new
one (with `id` computed after the removal) — so adding a user message is
not always a pure append and can drop the preceding user message. -/
theorem c10_user_replaces_trailing_user (t : List Char) (pre : List Msg)
    (last : Msg) (h : last.isUser = true) :
    handleUserMessage false t (pre ++ [last])
      = pre ++ [{ isUser := true, text := t, id := pre.length + 1 }] := by
  simp only [handleUserMessage, Bool.false_eq_true, if_false]
  have hl : (pre ++ [last]).getLast? = some last := by
    rw [List.getLast?_concat]
  simp only [hl, Option.map_some', h, Option.getD_some, if_true,
    List.dropLast_concat]

/-- C10, witness: a settled user message dropping the concrete user
message before it. -/
theorem c10_user_replaces_trailing_user_witness :
    ({ isUser := true, text := "a".data : Msg }).isUser = true
    ∧ handleUserMessage false "b".data [{ isUser := true, text := "a".data : Msg }]
        = [{ isUser := true, text := "b".data, id := 1 }] :=
  ⟨rfl, c10_user_replaces_trailing_user "b".data []
    { isUser := true, text := "a".data } rfl⟩

end ChatbotRag
